import Mathlib

/-!
Verification of the zdts3 archival pipeline (purge → zip → upload) against its
specification.  The Go source (src/main.go and the flag-registry configuration
variant) is shallowly embedded: filesystem directories become lists of entries
or trees, machine integers become `Int`/`Nat` with explicit reduction mod `2^64`
where Go performs a `uint64` conversion, and each fallible step is driven by an
explicit error flag standing for the corresponding I/O failure.
-/

/- ## Calendar arithmetic and the retention filter

`archive` (src/main.go) computes the purge filter as

  now := time.Now()
  filter := time.Date(now.Year(), now.Month(), now.Day(), 23, 50, 0, 0,
                      now.Location()).AddDate(0, 0, -1)

and uses `uint64(filter.UnixMilli())`.  We embed the civil-calendar ↔ day-count
conversion Go's time package implements (for a location with a fixed UTC
offset), and the filter computation on top of it.
-/

/-- Gregorian leap-year predicate, as implemented by Go's `isLeap`. -/
def isLeap (y : Int) : Bool :=
  (y % 4 == 0 && y % 100 != 0) || (y % 400 == 0)

/-- Number of days of month `m` (1..12) of year `y`. -/
def daysInMonth (y m : Int) : Int :=
  if m = 2 then (if isLeap y then 29 else 28)
  else if m = 4 ∨ m = 6 ∨ m = 9 ∨ m = 11 then 30 else 31

/-- Days since the Unix epoch (1970-01-01) of the civil date `y-m-d`: the
civil-date-to-day-count function computed by Go's `time.Date` for `m` in 1..12.
The day `d` may lie outside 1..daysInMonth: the expression is linear in `d`,
which is exactly how `time.Date` normalizes an out-of-range day value.
(Standard era-based civil-calendar algorithm; `/` on `Int` here rounds toward
negative infinity, which on the era term agrees with the usual
truncating-division formulation via its negative-era adjustment.) -/
def daysFromCivil (y m d : Int) : Int :=
  let yAdj := if m ≤ 2 then y - 1 else y
  let era := yAdj / 400
  let yoe := yAdj - era * 400
  let mp := (m + 9) % 12
  let doy := (153 * mp + 2) / 5 + d - 1
  let doe := yoe * 365 + yoe / 4 - yoe / 100 + doy
  era * 146097 + doe - 719468

/-- Unix seconds of `time.Date(y, m, d, hh, mi, ss, 0, loc)` where `loc` is a
location with fixed UTC offset `offsetSec`, for `m` in 1..12 (`d` and the clock
fields may be out of range; `Date` normalizes them linearly). -/
def goDateUnixSec (y m d hh mi ss offsetSec : Int) : Int :=
  daysFromCivil y m d * 86400 + hh * 3600 + mi * 60 + ss - offsetSec

/-- Go's conversion `uint64(x)` of an `int64` value: reduction modulo `2^64`
(a negative value wraps around to a huge unsigned one). -/
def goUInt64 (i : Int) : Nat := (i % (2 ^ 64)).toNat

/-- The purge filter of `archive` (src/main.go), in milliseconds since the
epoch, as a function of the civil date `(y, m, d)` of `time.Now()` in a
location of fixed UTC offset `offsetSec`:

  time.Date(y, m, d, 23, 50, 0, 0, loc).AddDate(0, 0, -1).UnixMilli()

Because `(y, m, d)` are the components of an actual time they form a valid
civil date, so `t := time.Date(y, m, d, 23, 50, 0, 0, loc)` has civil date
`(y, m, d)` again, and Go's `AddDate(0, 0, -1)` — defined as
`Date(t.Year(), t.Month(), t.Day()-1, t.Clock(), loc)` — is
`Date(y, m, d-1, 23, 50, 0, 0, loc)`. -/
def archiveFilterMilli (y m d offsetSec : Int) : Int :=
  goDateUnixSec y m (d - 1) 23 50 0 offsetSec * 1000

/-- The previous calendar day of the civil date `(y, m, d)` — the spec-side
notion ("23:50:00 local time of the previous calendar day"), written by direct
case analysis on the calendar, independently of the day-count arithmetic the
code relies on. -/
def prevCivilDay (y m d : Int) : Int × Int × Int :=
  if 1 < d then (y, m, d - 1)
  else if 1 < m then (y, m - 1, daysInMonth y (m - 1))
  else (y - 1, 12, 31)

/-- Milliseconds since the epoch of clock time `hh:mi:ss` on the civil date `p`
in a location of fixed UTC offset `offsetSec`. -/
def civilClockMilli (p : Int × Int × Int) (hh mi ss offsetSec : Int) : Int :=
  (daysFromCivil p.1 p.2.1 p.2.2 * 86400 + hh * 3600 + mi * 60 + ss - offsetSec) * 1000

/-- A valid civil date: month in range and day within the month. -/
def ValidDate (y m d : Int) : Prop :=
  1 ≤ m ∧ m ≤ 12 ∧ 1 ≤ d ∧ d ≤ daysInMonth y m

instance (y m d : Int) : Decidable (ValidDate y m d) := by
  unfold ValidDate; infer_instance

theorem daysFromCivil_sub_one (y m d : Int) :
    daysFromCivil y m (d - 1) = daysFromCivil y m d - 1 := by
  simp only [daysFromCivil]; omega

theorem daysFromCivil_march_start (y : Int) :
    daysFromCivil y 3 0 = daysFromCivil y 2 (daysInMonth y 2) := by
  rw [show daysInMonth y 2 = if isLeap y then 29 else 28 from by simp [daysInMonth]]
  cases hl : isLeap y with
  | true =>
      simp only [Bool.or_eq_true, Bool.and_eq_true, beq_iff_eq, bne_iff_ne, isLeap] at hl
      simp only [if_true, daysFromCivil]
      norm_num
      omega
  | false =>
      simp only [Bool.or_eq_false_iff, Bool.and_eq_false_iff, beq_eq_false_iff_ne,
        bne_eq_false_iff_eq, isLeap] at hl
      simp only [if_false, daysFromCivil]
      norm_num
      omega

theorem daysFromCivil_month_start (y m : Int) (h2 : 2 ≤ m) (h12 : m ≤ 12) :
    daysFromCivil y m 0 = daysFromCivil y (m - 1) (daysInMonth y (m - 1)) := by
  interval_cases m <;>
    first
      | (norm_num; exact daysFromCivil_march_start y)
      | (simp only [daysFromCivil, daysInMonth]; norm_num; try omega)

theorem daysFromCivil_year_start (y : Int) :
    daysFromCivil y 1 0 = daysFromCivil (y - 1) 12 31 := by
  simp only [daysFromCivil]; omega

/-- C4: for every current wall-clock time — given through its civil components
`(y, m, d)` in a location of fixed UTC offset — the retention filter computed
by `archive` equals 23:50:00 local time of the previous calendar day, in
milliseconds since the epoch; it is a total function of the date and the
location alone. -/
theorem archive_filter_is_2350_of_previous_day (y m d offsetSec : Int)
    (h : ValidDate y m d) :
    archiveFilterMilli y m d offsetSec =
      civilClockMilli (prevCivilDay y m d) 23 50 0 offsetSec := by
  obtain ⟨hm1, hm12, hd1, hdm⟩ := h
  by_cases hd : 1 < d
  · simp only [archiveFilterMilli, goDateUnixSec, prevCivilDay, if_pos hd, civilClockMilli]
  · have hd1' : d = 1 := by omega
    subst hd1'
    by_cases hm : 1 < m
    · have hp : prevCivilDay y m 1 = (y, m - 1, daysInMonth y (m - 1)) := by
        simp [prevCivilDay, hm]
      rw [hp]
      have hms := daysFromCivil_month_start y m (by omega) hm12
      simp only [archiveFilterMilli, goDateUnixSec, civilClockMilli]
      norm_num
      omega
    · have hm1' : m = 1 := by omega
      subst hm1'
      have hp : prevCivilDay y 1 1 = (y - 1, 12, 31) := by simp [prevCivilDay]
      rw [hp]
      have hys := daysFromCivil_year_start y
      simp only [archiveFilterMilli, goDateUnixSec, civilClockMilli]
      norm_num
      omega

/-- Witness for C4 at a concrete input: 2024-03-01 in a UTC+2 location; the
filter is 23:50:00 of 2024-02-29 (a leap day). -/
theorem archive_filter_is_2350_of_previous_day_witness :
    ValidDate 2024 3 1 ∧
      archiveFilterMilli 2024 3 1 7200 =
        civilClockMilli (prevCivilDay 2024 3 1) 23 50 0 7200 :=
  ⟨by decide, archive_filter_is_2350_of_previous_day 2024 3 1 7200 (by decide)⟩

/- ## The directory purger

`purgeDir` (src/main.go) reads the directory with `os.ReadDir` (returning on
error with nothing deleted) and, for every immediate entry — `os.ReadDir` is
non-recursive and returns files and subdirectories alike; the loop has no
`IsDir` check — fetches `file.Info()` (skipping the entry on error), converts
`info.ModTime().UnixMilli()` (an `int64`) to `uint64`, and calls
`os.Remove(filepath.Join(dir, name))` when that value is strictly below the
filter.  `os.Remove` (unlink, then rmdir) deletes a file or an *empty*
directory and fails on a non-empty directory, in which case the entry is
logged and kept.
-/

/-- An immediate entry of the source directory as `purgeDir` sees it: its
name, whether it is a directory and in that case whether it has contents, its
`ModTime().UnixMilli()` (a signed `int64` value), and whether `file.Info()`
fails for it. -/
structure DirEntry where
  name : String
  isDir : Bool
  hasChildren : Bool
  modMilli : Int
  infoErr : Bool
deriving DecidableEq, Repr

/-- Whether `purgeDir` keeps entry `e` under `filter`: kept when `file.Info()`
fails (per-entry skip), when `uint64(ModTime().UnixMilli())` is not strictly
below the filter, or when `os.Remove` fails — which, for an existing path,
happens exactly when the entry is a non-empty directory. -/
def purgeKeeps (filter : Nat) (e : DirEntry) : Bool :=
  e.infoErr || decide (filter ≤ goUInt64 e.modMilli) || (e.isDir && e.hasChildren)

/-- `purgeDir` (src/main.go) on the directory's immediate entries: on an
`os.ReadDir` error it returns with no deletions; otherwise the entries kept
are exactly those `purgeKeeps` describes.  Subdirectory *contents* are outside
its reach entirely (`os.ReadDir` does not recurse). -/
def purgeDir (entries : List DirEntry) (filter : Nat) (readDirErr : Bool) :
    List DirEntry :=
  if readDirErr then entries else entries.filter (purgeKeeps filter)

theorem goUInt64_of_nonneg (i : Int) (h0 : 0 ≤ i) (h64 : i < 2 ^ 64) :
    (goUInt64 i : Int) = i := by
  simp only [goUInt64]
  omega

/-- C2 counterexample: a top-level file whose modification timestamp is
negative (1 ms before the epoch — a legal mtime) and therefore strictly below
the cutoff 1000 nevertheless survives the purge, because `purgeDir` compares
`uint64(ModTime().UnixMilli())`, and the negative `int64` wraps around to
`2^64 - 1`. -/
theorem purge_boundary_counterexample :
    (DirEntry.mk ("pre-epoch.txt") false false (-1) false).modMilli < 1000 ∧
      purgeDir [DirEntry.mk ("pre-epoch.txt") false false (-1) false] 1000 false =
        [DirEntry.mk ("pre-epoch.txt") false false (-1) false] := by
  constructor
  · decide
  · decide

/-- C2 (amended): for every directory and cutoff below `2^64`, after the purge
every top-level file whose metadata is retrievable and whose modification
timestamp is *nonnegative* (and in `int64` range) and strictly below the cutoff
no longer exists, and every file whose timestamp is at least the cutoff is
still present unchanged.  (A file with a negative, pre-epoch timestamp is kept:
the `uint64` conversion wraps it to a huge value.) -/
theorem purge_boundary (entries : List DirEntry) (filter : Nat) (e : DirEntry)
    (hmem : e ∈ entries) (hfile : e.isDir = false) (hinfo : e.infoErr = false)
    (hlo : 0 ≤ e.modMilli) (hhi : e.modMilli < 2 ^ 63) (hflt : filter < 2 ^ 64) :
    (e.modMilli < (filter : Int) → e ∉ purgeDir entries filter false) ∧
      ((filter : Int) ≤ e.modMilli → e ∈ purgeDir entries filter false) := by
  have hwrap : (goUInt64 e.modMilli : Int) = e.modMilli :=
    goUInt64_of_nonneg e.modMilli hlo (by omega)
  rw [show purgeDir entries filter false = entries.filter (purgeKeeps filter) from rfl]
  simp only [List.mem_filter, purgeKeeps, hfile, hinfo, Bool.false_and,
    Bool.or_false, Bool.false_or, decide_eq_true_eq]
  constructor
  · intro hlt hcontra
    obtain ⟨-, hkeep⟩ := hcontra
    omega
  · intro hge
    exact ⟨hmem, by omega⟩

/-- Witness for C2 (amended): cutoff 1000; a file with timestamp 500 is
deleted and a file with timestamp 1000 survives. -/
theorem purge_boundary_witness :
    (DirEntry.mk ("old.txt") false false 500 false).modMilli < (1000 : Nat) ∧
      DirEntry.mk ("old.txt") false false 500 false ∉
        purgeDir [DirEntry.mk ("old.txt") false false 500 false,
          DirEntry.mk ("new.txt") false false 1000 false] 1000 false ∧
      DirEntry.mk ("new.txt") false false 1000 false ∈
        purgeDir [DirEntry.mk ("old.txt") false false 500 false,
          DirEntry.mk ("new.txt") false false 1000 false] 1000 false := by
  refine ⟨by decide, ?_, ?_⟩
  · exact (purge_boundary _ 1000 _ (by decide) (by decide) (by decide) (by decide)
      (by decide) (by norm_num)).1 (by decide)
  · exact (purge_boundary _ 1000 _ (by decide) (by decide) (by decide) (by decide)
      (by decide) (by norm_num)).2 (by decide)

/-- C8 counterexample: an *empty* subdirectory whose modification time (0)
precedes the cutoff is deleted by the purge — `purgeDir` has no `IsDir` guard
and `os.Remove` succeeds on an empty directory — contradicting "never deletes
a subdirectory". -/
theorem purge_subdir_counterexample :
    (DirEntry.mk ("stale-empty-subdir") true false 0 false).isDir = true ∧
      purgeDir [DirEntry.mk ("stale-empty-subdir") true false 0 false] 1000 false = [] := by
  constructor
  · decide
  · decide

/-- C8 (amended): the purge considers only the immediate entries of the
directory (`os.ReadDir` is non-recursive, so nothing inside a subdirectory is
ever a deletion candidate); it never deletes a *non-empty* subdirectory —
`os.Remove` fails on one and the entry is kept — but an empty subdirectory
older than the cutoff *is* deleted; entries whose modification metadata cannot
be retrieved are skipped and never deleted; and no entry is ever added or
modified. -/
theorem purge_frame (entries : List DirEntry) (filter : Nat) (readDirErr : Bool)
    (e : DirEntry) (hmem : e ∈ entries) :
    (e.isDir = true → e.hasChildren = true → e ∈ purgeDir entries filter readDirErr) ∧
      (e.infoErr = true → e ∈ purgeDir entries filter readDirErr) ∧
      ∀ x ∈ purgeDir entries filter readDirErr, x ∈ entries := by
  refine ⟨?_, ?_, ?_⟩
  · intro hdir hne
    cases readDirErr with
    | true => simpa [purgeDir] using hmem
    | false =>
        rw [show purgeDir entries filter false = entries.filter (purgeKeeps filter) from rfl]
        exact List.mem_filter.mpr ⟨hmem, by simp [purgeKeeps, hdir, hne]⟩
  · intro hie
    cases readDirErr with
    | true => simpa [purgeDir] using hmem
    | false =>
        rw [show purgeDir entries filter false = entries.filter (purgeKeeps filter) from rfl]
        exact List.mem_filter.mpr ⟨hmem, by simp [purgeKeeps, hie]⟩
  · intro x hx
    cases readDirErr with
    | true => simpa [purgeDir] using hx
    | false =>
        rw [show purgeDir entries filter false = entries.filter (purgeKeeps filter) from rfl] at hx
        exact (List.mem_filter.mp hx).1

/-- Witness for C8 (amended): under cutoff 1000, a stale non-empty
subdirectory and a stale entry with unreadable metadata both survive. -/
theorem purge_frame_witness :
    DirEntry.mk ("full-subdir") true true 0 false ∈
      purgeDir [DirEntry.mk ("full-subdir") true true 0 false,
        DirEntry.mk ("no-meta") false false 0 true] 1000 false ∧
      DirEntry.mk ("no-meta") false false 0 true ∈
        purgeDir [DirEntry.mk ("full-subdir") true true 0 false,
          DirEntry.mk ("no-meta") false false 0 true] 1000 false := by
  constructor
  · exact (purge_frame _ 1000 false _ (by decide)).1 (by decide) (by decide)
  · exact ((purge_frame _ 1000 false _ (by decide)).2).1 (by decide)

/- ## The pipeline run (`archive`, src/main.go)

`archive` computes the filter (above), calls `purgeDir`, builds
`zipPath := filepath.Join(dir, fmt.Sprintf("%s-%d.zip", filename,
uint64(filter.UnixMilli())))`, and calls `zipDir(ctx, dir, zipPath, logger)`.
The final call `uploadZip(ctx, zipPath, cfg, logger)` is commented out in the
source, so a run touches the bucket in no way.  Here the source directory is
modelled by its immediate entries (the per-file-content model of the archiver
is in the next section); the archive listing a run produces is recorded as the
names of the top-level files the walk finds.
-/

/-- The archive file name `archive` builds:
`fmt.Sprintf("%s-%d.zip", filename, uint64(filter.UnixMilli()))` — the `%d`
prints the `uint64` value of the *filter* timestamp. -/
def zipFileName (filename : String) (filterMilli : Int) : String :=
  filename ++ "-" ++ toString (goUInt64 filterMilli) ++ ".zip"

/-- `filepath.Join(dir, name)` on a path modelled as its segments. -/
def joinPath (dir : List String) (nm : String) : List String := dir ++ [nm]

/-- The destination path of the run's archive:
`filepath.Join(dir, fmt.Sprintf("%s-%d.zip", filename, uint64(filter.UnixMilli())))`. -/
def archiveZipPath (dir : List String) (filename : String) (filterMilli : Int) :
    List String :=
  joinPath dir (zipFileName filename filterMilli)

/-- `os.Create(path)` at the directory level: an existing entry of that name
is truncated (replaced by a fresh plain file), otherwise a fresh file is
appended; `nowMilli` is the creation time. -/
def createFile (entries : List DirEntry) (nm : String) (nowMilli : Int) :
    List DirEntry :=
  entries.filter (fun e => !(e.name == nm)) ++ [DirEntry.mk nm false false nowMilli false]

/-- The top-level files of the directory, in the order the walk of `zipDir`
meets them — the part of the walk visible at this level of the model. -/
def zipListing (entries : List DirEntry) : List String :=
  (entries.filter (fun e => !e.isDir)).map (fun e => e.name)

/-- The observable state of one pipeline run: the source directory's immediate
entries, the name and listing of the archive the run produced, and the remote
bucket's object names. -/
structure PipeState where
  entries : List DirEntry
  lastZipName : String
  lastArchive : List String
  bucket : List String
deriving DecidableEq, Repr

/-- One run of `archive` (src/main.go), for a run whose `time.Now()` has civil
date `(y, m, d)` (location offset `offsetSec`) and Unix time `nowMilli`:
purge with the filter, create the destination archive inside the source
directory, record the walked listing — and, because the `uploadZip` call is
commented out in the source, leave the bucket untouched. -/
def archiveRun (y m d offsetSec nowMilli : Int) (filename : String)
    (readDirErr : Bool) (st : PipeState) : PipeState :=
  let filterM := archiveFilterMilli y m d offsetSec
  let purged := purgeDir st.entries (goUInt64 filterM) readDirErr
  let zn := zipFileName filename filterM
  let created := createFile purged zn nowMilli
  { entries := created
    lastZipName := zn
    lastArchive := zipListing created
    bucket := st.bucket }

/-- C1 (code-bug evidence): the upload stage is never invoked — after every
pipeline run, whatever the directory contents, date and configuration, the
remote bucket is exactly what it was before the run; the `uploadZip` call in
`archive` is commented out, while the spec (and the tool's own README:
"uploading the zip archive to an S3 or S3-compatible bucket") requires every
run to upload the produced archive. -/
theorem archive_never_uploads (y m d offsetSec nowMilli : Int) (filename : String)
    (readDirErr : Bool) (st : PipeState) :
    (archiveRun y m d offsetSec nowMilli filename readDirErr st).bucket = st.bucket :=
  rfl

theorem zipListing_createFile_mem (entries : List DirEntry) (zn : String)
    (nowMilli : Int) (e : DirEntry) (hmem : e ∈ entries) (hfile : e.isDir = false)
    (hn : e.name ≠ zn) :
    e.name ∈ zipListing (createFile entries zn nowMilli) := by
  have h1 : e ∈ createFile entries zn nowMilli := by
    unfold createFile
    exact List.mem_append.mpr (Or.inl (List.mem_filter.mpr ⟨hmem, by simp [hn]⟩))
  unfold zipListing
  exact List.mem_map.mpr ⟨e, List.mem_filter.mpr ⟨h1, by simp [hfile]⟩, rfl⟩

theorem zipListing_createFile_self (entries : List DirEntry) (zn : String)
    (nowMilli : Int) :
    zn ∈ zipListing (createFile entries zn nowMilli) := by
  unfold zipListing createFile
  refine List.mem_map.mpr ⟨DirEntry.mk zn false false nowMilli false, ?_, rfl⟩
  exact List.mem_filter.mpr ⟨List.mem_append.mpr (Or.inr (by simp)), by simp⟩

theorem purgeDir_keeps (entries : List DirEntry) (filter : Nat) (readDirErr : Bool)
    (e : DirEntry) (hmem : e ∈ entries) (hkeep : purgeKeeps filter e = true) :
    e ∈ purgeDir entries filter readDirErr := by
  cases readDirErr with
  | true => simpa [purgeDir] using hmem
  | false =>
      rw [show purgeDir entries filter false = entries.filter (purgeKeeps filter) from rfl]
      exact List.mem_filter.mpr ⟨hmem, hkeep⟩

/-- C5: when enumerating the source directory fails, the purge is aborted with
no deletions — `purgeDir` returns the directory unchanged — and the archive
stage still runs over the unmodified contents: every pre-existing top-level
file (other than one the freshly created destination overwrites) appears in
the listing of the archive the run produces. -/
theorem purge_enum_failure_still_archives (y m d offsetSec nowMilli : Int)
    (filename : String) (st : PipeState) (e : DirEntry) (hmem : e ∈ st.entries)
    (hfile : e.isDir = false)
    (hn : e.name ≠ zipFileName filename (archiveFilterMilli y m d offsetSec)) :
    purgeDir st.entries (goUInt64 (archiveFilterMilli y m d offsetSec)) true = st.entries ∧
      e.name ∈ (archiveRun y m d offsetSec nowMilli filename true st).lastArchive := by
  refine ⟨rfl, ?_⟩
  show e.name ∈ zipListing (createFile
    (purgeDir st.entries (goUInt64 (archiveFilterMilli y m d offsetSec)) true)
    (zipFileName filename (archiveFilterMilli y m d offsetSec)) nowMilli)
  rw [show purgeDir st.entries (goUInt64 (archiveFilterMilli y m d offsetSec)) true
    = st.entries from rfl]
  exact zipListing_createFile_mem st.entries _ nowMilli e hmem hfile hn

/-- Witness for C5: a concrete run on 2024-06-15 (UTC) whose directory read
fails; the pre-existing dump file still shows up in the produced archive. -/
theorem purge_enum_failure_still_archives_witness :
    purgeDir [DirEntry.mk ("db-dump.sql") false false 1718409000001 false]
        (goUInt64 (archiveFilterMilli 2024 6 15 0)) true =
      [DirEntry.mk ("db-dump.sql") false false 1718409000001 false] ∧
      ("db-dump.sql") ∈ (archiveRun 2024 6 15 0 1718452800000 ("dump") true
        (PipeState.mk [DirEntry.mk ("db-dump.sql") false false 1718409000001 false]
          "" [] [])).lastArchive :=
  purge_enum_failure_still_archives 2024 6 15 0 1718452800000 ("dump")
    (PipeState.mk [DirEntry.mk ("db-dump.sql") false false 1718409000001 false] "" [] [])
    (DirEntry.mk ("db-dump.sql") false false 1718409000001 false)
    (by decide) (by decide) (by decide)

/-- C7 counterexample: a run whose wall clock reads 2024-06-15 12:00:00 UTC —
i.e. current timestamp 1718452800000 ms — produces an archive named
`dump-1718409000000.zip`: the number in the name is the retention-cutoff
timestamp (23:50:00 of 2024-06-14), not the run's current timestamp, so the
name differs from the `dump-<current timestamp>.zip` the claim requires. -/
theorem archive_name_counterexample :
    civilClockMilli (2024, 6, 15) 12 0 0 0 = 1718452800000 ∧
      (archiveRun 2024 6 15 0 1718452800000 ("dump") false
          (PipeState.mk [] "" [] [])).lastZipName = "dump-1718409000000.zip" ∧
      (archiveRun 2024 6 15 0 1718452800000 ("dump") false
          (PipeState.mk [] "" [] [])).lastZipName ≠
        ("dump") ++ "-" ++ toString (goUInt64 1718452800000) ++ ".zip" := by
  refine ⟨by decide, by decide, by decide⟩

/-- C7 (amended): the archive artifact of every run is named from the run's
*retention-cutoff* timestamp (23:50:00 of the previous day), not its current
timestamp: configured base name, hyphen, `uint64(filter.UnixMilli())`, and the
`.zip` suffix. -/
theorem archive_name_uses_cutoff_timestamp (y m d offsetSec nowMilli : Int)
    (filename : String) (readDirErr : Bool) (st : PipeState) :
    (archiveRun y m d offsetSec nowMilli filename readDirErr st).lastZipName =
      filename ++ "-" ++ toString (goUInt64 (archiveFilterMilli y m d offsetSec)) ++ ".zip" :=
  rfl

/-- C10: the destination archive path is the source directory joined with the
archive file name — so it lies inside the directory being archived; the walk
that builds the archive therefore meets the archive file itself (its name is
always in the produced listing); and a leftover archive from a previous failed
run — any stale top-level file — is purged by the next run when its (wrapped)
modification time precedes the cutoff, and archived by it when it survives
with a name the new destination does not overwrite. -/
theorem archive_destination_inside_source (dir : List String)
    (y m d offsetSec nowMilli : Int) (filename : String) (readDirErr : Bool)
    (st : PipeState) (e : DirEntry) (hmem : e ∈ st.entries)
    (hfile : e.isDir = false) (hinfo : e.infoErr = false) :
    archiveZipPath dir filename (archiveFilterMilli y m d offsetSec) =
        dir ++ [zipFileName filename (archiveFilterMilli y m d offsetSec)] ∧
      (archiveRun y m d offsetSec nowMilli filename readDirErr st).lastZipName ∈
        (archiveRun y m d offsetSec nowMilli filename readDirErr st).lastArchive ∧
      (goUInt64 e.modMilli < goUInt64 (archiveFilterMilli y m d offsetSec) →
        e ∉ purgeDir st.entries (goUInt64 (archiveFilterMilli y m d offsetSec)) false) ∧
      (goUInt64 (archiveFilterMilli y m d offsetSec) ≤ goUInt64 e.modMilli →
        e.name ≠ zipFileName filename (archiveFilterMilli y m d offsetSec) →
        e.name ∈ (archiveRun y m d offsetSec nowMilli filename readDirErr st).lastArchive) := by
  refine ⟨rfl, ?_, ?_, ?_⟩
  · exact zipListing_createFile_self _ _ _
  · intro hold hcontra
    rw [show purgeDir st.entries (goUInt64 (archiveFilterMilli y m d offsetSec)) false
      = st.entries.filter (purgeKeeps (goUInt64 (archiveFilterMilli y m d offsetSec)))
      from rfl] at hcontra
    have := (List.mem_filter.mp hcontra).2
    simp only [purgeKeeps, hfile, hinfo, Bool.false_and, Bool.or_false,
      Bool.false_or, decide_eq_true_eq] at this
    omega
  · intro hkeep hn
    show e.name ∈ zipListing (createFile
      (purgeDir st.entries (goUInt64 (archiveFilterMilli y m d offsetSec)) readDirErr)
      (zipFileName filename (archiveFilterMilli y m d offsetSec)) nowMilli)
    refine zipListing_createFile_mem _ _ nowMilli e ?_ hfile hn
    refine purgeDir_keeps _ _ _ e hmem ?_
    simp [purgeKeeps, hkeep]

/-- Witness for C10 on a concrete run: source directory `/data`, a leftover
`dump-1718322600000.zip` from the previous run (modification time before the
new cutoff), date 2024-06-15 UTC. -/
theorem archive_destination_inside_source_witness :
    archiveZipPath [("/"), ("data")] ("dump") (archiveFilterMilli 2024 6 15 0) =
        [("/"), ("data")] ++ [zipFileName ("dump") (archiveFilterMilli 2024 6 15 0)] ∧
      (archiveRun 2024 6 15 0 1718452800000 ("dump") false
          (PipeState.mk [DirEntry.mk ("dump-1718322600000.zip") false false 1718322600001 false]
            "" [] [])).lastZipName ∈
        (archiveRun 2024 6 15 0 1718452800000 ("dump") false
          (PipeState.mk [DirEntry.mk ("dump-1718322600000.zip") false false 1718322600001 false]
            "" [] [])).lastArchive ∧
      DirEntry.mk ("dump-1718322600000.zip") false false 1718322600001 false ∉
        purgeDir [DirEntry.mk ("dump-1718322600000.zip") false false 1718322600001 false]
          (goUInt64 (archiveFilterMilli 2024 6 15 0)) false := by
  have h := archive_destination_inside_source [("/"), ("data")] 2024 6 15 0 1718452800000
    ("dump") false
    (PipeState.mk [DirEntry.mk ("dump-1718322600000.zip") false false 1718322600001 false]
      "" [] [])
    (DirEntry.mk ("dump-1718322600000.zip") false false 1718322600001 false)
    (by decide) (by decide) (by decide)
  exact ⟨h.1, h.2.1, h.2.2.1 (by decide)⟩

/- ## The archiver (`zipDir`, src/main.go), at the level of file contents

`zipDir` creates the destination file, then `filepath.WalkDir`s the source
directory; for each non-directory entry it computes
`relPath := filepath.Rel(dir, path)`, opens a zip entry named `relPath` and
copies the file's bytes into it; directories are skipped (`d.IsDir()`).  The
source directory is a tree; paths are modelled as segment lists; this section
models the contract's case of a destination outside the walked directory (as
in the repository's tests) — the pipeline's inside-the-directory destination
is the subject of the C10 theorems above.
-/

/-- A node of the source directory tree: a file with its bytes, or a
subdirectory with its children. -/
inductive FsTree where
  | file (nm : String) (content : List Nat)
  | dir (nm : String) (children : List FsTree)

/-- The name of a tree node. -/
def treeName : FsTree → String
  | .file nm _ => nm
  | .dir nm _ => nm

/-- `filepath.WalkDir` restricted to the non-directory entries, in order:
the files below the given forest, each with its absolute path (below `pre`)
and its bytes.  Directories contribute no element of their own. -/
def walkList (pre : List String) : List FsTree → List (List String × List Nat)
  | [] => []
  | .file nm c :: ts => (pre ++ [nm], c) :: walkList pre ts
  | .dir nm cs :: ts => walkList (pre ++ [nm]) cs ++ walkList pre ts

/-- The filesystem invariant that sibling names are distinct, at every level
of the forest. -/
def forestUniq : List FsTree → Bool
  | [] => true
  | .file nm _ :: ts => !((ts.map treeName).contains nm) && forestUniq ts
  | .dir nm cs :: ts => !((ts.map treeName).contains nm) && forestUniq cs && forestUniq ts

/-- `filepath.Rel(base, p)` for a path `p` lying below `base`: the remaining
segments. -/
def relPath (base p : List String) : List String := p.drop base.length

/-- The entries `zipDir` writes into the archive: one entry per walked file,
named by its path relative to the source directory root, containing the
file's bytes (`io.Copy`). -/
def zipDirEntries (base : List String) (roots : List FsTree) :
    List (List String × List Nat) :=
  (walkList base roots).map (fun e => (relPath base e.1, e.2))

theorem walk_shape (pre : List String) (ts : List FsTree) :
    ∀ e ∈ walkList pre ts, ∃ nm rest, e.1 = pre ++ nm :: rest ∧ nm ∈ ts.map treeName := by
  induction pre, ts using walkList.induct with
  | case1 pre => intro e he; simp [walkList] at he
  | case2 pre nm c ts ih =>
      intro e he
      rw [walkList] at he
      rcases List.mem_cons.mp he with h | h
      · exact ⟨nm, [], by simp [h], by simp [treeName]⟩
      · obtain ⟨nm', rest, h1, h2⟩ := ih e h
        exact ⟨nm', rest, h1, by simp [treeName]; right; simpa using h2⟩
  | case3 pre nm cs ts ih1 ih2 =>
      intro e he
      rw [walkList] at he
      rcases List.mem_append.mp he with h | h
      · obtain ⟨nm', rest, h1, h2⟩ := ih1 e h
        refine ⟨nm, nm' :: rest, ?_, by simp [treeName]⟩
        rw [h1]; simp
      · obtain ⟨nm', rest, h1, h2⟩ := ih2 e h
        exact ⟨nm', rest, h1, by simp [treeName]; right; simpa using h2⟩

theorem walk_countP_zero (pre : List String) (ts : List FsTree) (q : List String)
    (hq : ∀ nm rest, q = pre ++ nm :: rest → nm ∉ ts.map treeName) :
    (walkList pre ts).countP (fun e => e.1 == q) = 0 := by
  rw [List.countP_eq_zero]
  intro e he
  obtain ⟨nm, rest, h1, h2⟩ := walk_shape pre ts e he
  simp only [beq_iff_eq]
  intro hcontra
  exact hq nm rest (hcontra ▸ h1) h2

theorem walk_countP_one (pre : List String) (ts : List FsTree) :
    ∀ f, forestUniq ts = true → f ∈ walkList pre ts →
      (walkList pre ts).countP (fun e => e.1 == f.1) = 1 := by
  induction pre, ts using walkList.induct with
  | case1 pre =>
      intro f hu hf
      simp [walkList] at hf
  | case2 pre nm c ts ih =>
      intro f hu hf
      simp only [forestUniq, Bool.and_eq_true, Bool.not_eq_true'] at hu
      have hnm : nm ∉ ts.map treeName := by simpa using hu.1
      have hu' : forestUniq ts = true := hu.2
      rw [walkList] at hf ⊢
      rcases List.mem_cons.mp hf with hh | ht
      · rw [List.countP_cons_of_pos (fun e => e.1 == f.1) (walkList pre ts) (by simp [hh])]
        have hz : (walkList pre ts).countP (fun e => e.1 == f.1) = 0 := by
          apply walk_countP_zero
          intro nm' rest' hq
          have hq' : pre ++ [nm] = pre ++ nm' :: rest' := by rw [hh] at hq; exact hq
          have h2 : [nm] = nm' :: rest' := List.append_cancel_left hq'
          injection h2 with h2a h2b
          rw [← h2a]
          exact hnm
        rw [hz]
      · have hne : ¬ ((pre ++ [nm], c).1 == f.1) = true := by
          obtain ⟨nm', rest, h1, h2⟩ := walk_shape pre ts f ht
          simp only [beq_iff_eq]
          intro hcontra
          have hc2 : pre ++ [nm] = pre ++ nm' :: rest := by rw [← h1]; exact hcontra
          have h3 : [nm] = nm' :: rest := List.append_cancel_left hc2
          injection h3 with h3a h3b
          exact hnm (h3a ▸ h2)
        rw [List.countP_cons_of_neg (fun e => e.1 == f.1) (walkList pre ts) hne]
        exact ih f hu' ht
  | case3 pre nm cs ts ih1 ih2 =>
      intro f hu hf
      simp only [forestUniq, Bool.and_eq_true, Bool.not_eq_true'] at hu
      have hnm : nm ∉ ts.map treeName := by simpa using hu.1.1
      have hucs : forestUniq cs = true := hu.1.2
      have huts : forestUniq ts = true := hu.2
      rw [walkList] at hf ⊢
      rw [List.countP_append]
      rcases List.mem_append.mp hf with hL | hR
      · obtain ⟨nm2, rest2, hsh, -⟩ := walk_shape (pre ++ [nm]) cs f hL
        have hfL : f.1 = pre ++ nm :: nm2 :: rest2 := by rw [hsh]; simp
        have hz : (walkList pre ts).countP (fun e => e.1 == f.1) = 0 := by
          apply walk_countP_zero
          intro nm' rest' hq
          have hq' : pre ++ nm :: nm2 :: rest2 = pre ++ nm' :: rest' := by
            rw [← hfL]; exact hq
          have h2 := List.append_cancel_left hq'
          injection h2 with h2a h2b
          rw [← h2a]
          exact hnm
        rw [ih1 f hucs hL, hz]
      · obtain ⟨nm', rest', hsh, hmemn⟩ := walk_shape pre ts f hR
        have hz : (walkList (pre ++ [nm]) cs).countP (fun e => e.1 == f.1) = 0 := by
          apply walk_countP_zero
          intro nm2 rest2 hq
          exfalso
          have hq' : pre ++ nm' :: rest' = pre ++ nm :: nm2 :: rest2 := by
            rw [← hsh, hq]; simp
          have h2 := List.append_cancel_left hq'
          injection h2 with h2a h2b
          exact hnm (h2a ▸ hmemn)
        rw [ih2 f huts hR, hz]

/-- C6: for every file found by the recursive walk of a source directory whose
sibling names are distinct (the filesystem invariant), the archive `zipDir`
produces contains an entry named by the file's path relative to the source
root with byte-identical content, exactly one entry carries that name, and
every entry of the archive arises from a walked file — directories themselves
are never stored as entries. -/
theorem zipDir_completeness (base : List String) (roots : List FsTree)
    (hu : forestUniq roots = true) (f : List String × List Nat)
    (hf : f ∈ walkList base roots) :
    (relPath base f.1, f.2) ∈ zipDirEntries base roots ∧
      (zipDirEntries base roots).countP (fun e => e.1 == relPath base f.1) = 1 ∧
      ∀ e ∈ zipDirEntries base roots, ∃ g, g ∈ walkList base roots ∧
        e = (relPath base g.1, g.2) := by
  refine ⟨List.mem_map.mpr ⟨f, hf, rfl⟩, ?_, ?_⟩
  · rw [zipDirEntries, List.countP_map]
    have hcong : ∀ g ∈ walkList base roots,
        (((fun e => e.1 == relPath base f.1) ∘
            (fun e : List String × List Nat => (relPath base e.1, e.2))) g = true) ↔
          ((fun e : List String × List Nat => e.1 == f.1) g = true) := by
      intro g hg
      obtain ⟨nmg, restg, hg1, -⟩ := walk_shape base roots g hg
      obtain ⟨nmf, restf, hf1, -⟩ := walk_shape base roots f hf
      simp only [Function.comp, beq_iff_eq]
      rw [hg1, hf1, relPath, relPath, List.drop_left, List.drop_left]
      constructor
      · intro h; rw [h]
      · intro h; exact List.append_cancel_left h
    rw [List.countP_congr hcong]
    exact walk_countP_one base roots f hu hf
  · intro e he
    obtain ⟨g, hg, hge⟩ := List.mem_map.mp he
    exact ⟨g, hg, hge.symm⟩

/-- Witness for C6: source `src` containing subdirectory `sub` with file
`a.txt` (bytes `[104, 105]`) and top-level file `b.txt`; the walked file
`src/sub/a.txt` yields exactly the entry `sub/a.txt` with its bytes. -/
theorem zipDir_completeness_witness :
    forestUniq [FsTree.dir ("sub") [FsTree.file ("a.txt") [104, 105]],
        FsTree.file ("b.txt") [33]] = true ∧
      ([("src"), ("sub"), ("a.txt")], ([104, 105] : List Nat)) ∈
        walkList [("src")] [FsTree.dir ("sub") [FsTree.file ("a.txt") [104, 105]],
          FsTree.file ("b.txt") [33]] ∧
      (relPath [("src")] [("src"), ("sub"), ("a.txt")], ([104, 105] : List Nat)) ∈
        zipDirEntries [("src")] [FsTree.dir ("sub") [FsTree.file ("a.txt") [104, 105]],
          FsTree.file ("b.txt") [33]] ∧
      (zipDirEntries [("src")] [FsTree.dir ("sub") [FsTree.file ("a.txt") [104, 105]],
          FsTree.file ("b.txt") [33]]).countP
        (fun e => e.1 == relPath [("src")] [("src"), ("sub"), ("a.txt")]) = 1 := by
  have h := zipDir_completeness [("src")]
    [FsTree.dir ("sub") [FsTree.file ("a.txt") [104, 105]], FsTree.file ("b.txt") [33]]
    (by simp [forestUniq, treeName])
    ([("src"), ("sub"), ("a.txt")], [104, 105])
    (by simp [walkList])
  exact ⟨by simp [forestUniq, treeName], by simp [walkList], h.1, h.2.1⟩

/- ## The uploader (`uploadZip`, src/main.go)

`uploadZip` builds a minio client (`minio.New`; on error it logs and returns),
then `FPutObject`s the file at `zipPath` into the bucket under
`filepath.Base(zipPath)` with content type `application/zip` (on error it logs
and returns), and only after a confirmed success removes the local file with
`os.Remove`.  The local filesystem is a list of `(path, bytes)` pairs; the
bucket a list of `(object name, bytes)` pairs; the two failure points are
explicit flags.
-/

/-- The failure environment of one upload: whether `minio.New` fails and
whether the `FPutObject` transfer fails. -/
structure UploadEnv where
  clientErr : Bool
  putErr : Bool
deriving DecidableEq, Repr

/-- `filepath.Base` of a slash-separated path string. -/
def baseName (p : String) : String := (p.splitOn ("/")).getLastD p

/-- The content of the file at path `p`, if present. -/
def lookupFile (fs : List (String × List Nat)) (p : String) : Option (List Nat) :=
  (fs.find? (fun e => e.1 == p)).map (fun e => e.2)

/-- `uploadZip` (src/main.go): on client-construction failure or transfer
failure (including an unreadable local file) it returns leaving both the
filesystem and the bucket untouched; on confirmed success the object is in the
bucket and the local archive is removed.  Returns (filesystem, bucket). -/
def uploadZip (env : UploadEnv) (zipPath : String) (fs : List (String × List Nat))
    (bucket : List (String × List Nat)) :
    List (String × List Nat) × List (String × List Nat) :=
  if env.clientErr then (fs, bucket)
  else
    match lookupFile fs zipPath with
    | none => (fs, bucket)
    | some c =>
        if env.putErr then (fs, bucket)
        else (fs.filter (fun e => !(e.1 == zipPath)), bucket ++ [(baseName zipPath, c)])

theorem lookupFile_filter_self (fs : List (String × List Nat)) (p : String) :
    lookupFile (fs.filter (fun e => !(e.1 == p))) p = none := by
  unfold lookupFile
  rw [List.find?_eq_none.mpr]
  · rfl
  · intro e he
    have := (List.mem_filter.mp he).2
    simp only [Bool.not_eq_true'] at this
    simp [this]

/-- C3: the upload deletes the local archive exactly when the upload succeeds:
given the archive present on disk, after a run with no client error and no
transfer error the local file is gone and the object (named by the archive's
base name, with its bytes) has been appended to the bucket; after a run with a
client-construction or transfer error the filesystem and the bucket are both
exactly as before — in particular the archive is still present unchanged. -/
theorem uploadZip_deletes_iff_success (env : UploadEnv) (zipPath : String)
    (fs bucket : List (String × List Nat)) (c : List Nat)
    (hex : lookupFile fs zipPath = some c) :
    (env.clientErr = false → env.putErr = false →
        lookupFile (uploadZip env zipPath fs bucket).1 zipPath = none ∧
          (uploadZip env zipPath fs bucket).2 = bucket ++ [(baseName zipPath, c)]) ∧
      (env.clientErr = true ∨ env.putErr = true →
        (uploadZip env zipPath fs bucket).1 = fs ∧
          (uploadZip env zipPath fs bucket).2 = bucket) ∧
      (lookupFile (uploadZip env zipPath fs bucket).1 zipPath = none ↔
        env.clientErr = false ∧ env.putErr = false) := by
  refine ⟨?_, ?_, ?_⟩
  · intro hc hp
    simp only [uploadZip, hc, if_false, hex, hp, Bool.false_eq_true]
    exact ⟨lookupFile_filter_self fs zipPath, trivial⟩
  · intro h
    rcases h with hc | hp
    · simp [uploadZip, hc]
    · cases hce : env.clientErr with
      | true => simp [uploadZip, hce]
      | false => simp [uploadZip, hce, hex, hp]
  · cases hce : env.clientErr with
    | true =>
        simp only [uploadZip, hce, if_true]
        simp [hex]
    | false =>
        cases hpe : env.putErr with
        | true =>
            simp only [uploadZip, hce, hex, hpe]
            simp [hex]
        | false =>
            simp only [uploadZip, hce, hex, hpe]
            simp [lookupFile_filter_self fs zipPath]

/-- Witness for C3 on concrete inputs: archive `/data/dump-1.zip` with bytes
`[7, 8]`; a fully successful upload removes it and stores `dump-1.zip`; a
transfer failure leaves disk and bucket untouched. -/
theorem uploadZip_deletes_iff_success_witness :
    lookupFile [(("/data/dump-1.zip"), [7, 8])] ("/data/dump-1.zip") = some [7, 8] ∧
      lookupFile (uploadZip (UploadEnv.mk false false) ("/data/dump-1.zip")
          [(("/data/dump-1.zip"), [7, 8])] []).1 ("/data/dump-1.zip") = none ∧
      (uploadZip (UploadEnv.mk false false) ("/data/dump-1.zip")
          [(("/data/dump-1.zip"), [7, 8])] []).2 =
        [] ++ [(baseName ("/data/dump-1.zip"), [7, 8])] ∧
      (uploadZip (UploadEnv.mk false true) ("/data/dump-1.zip")
          [(("/data/dump-1.zip"), [7, 8])] []).1 = [(("/data/dump-1.zip"), [7, 8])] := by
  have hok := uploadZip_deletes_iff_success (UploadEnv.mk false false) ("/data/dump-1.zip")
    [(("/data/dump-1.zip"), [7, 8])] [] [7, 8] (by decide)
  have hfail := uploadZip_deletes_iff_success (UploadEnv.mk false true) ("/data/dump-1.zip")
    [(("/data/dump-1.zip"), [7, 8])] [] [7, 8] (by decide)
  exact ⟨by decide, (hok.1 rfl rfl).1, (hok.1 rfl rfl).2,
    ((hfail.2.1) (Or.inr rfl)).1⟩

/- ## Configuration resolution

Two variants exist in the repository.  The flag-registry variant
(`registerFlag`/`loadConfig`): each option is registered as a command-line
flag whose default is `os.Getenv(name)` (populated from a `.env` file when
present), then `flag.Parse()` runs, so an option's final value is the
command-line flag when one was passed and the environment value otherwise.
The `main.go` variant: `readFromEnv` fills the whole struct from the `.env`
map; only if the result fails validation is `readFromFlags` run, which
re-registers every field with default `""` (discarding the environment values)
and parses the flags.  Key-value sources are association lists; a flag being
present on the command line means the name occurs in the `flags` list.
-/

/-- `os.Getenv(k)`: the environment's value for `k`, or `""` when unset. -/
def envValue (env : List (String × String)) (k : String) : String :=
  (((env.find? (fun e => e.1 == k)).map (fun e => e.2)).getD (""))

/-- `registerFlag` (flag-registry variant) followed by `flag.Parse()`: the
resulting value of the option `nm` — `flag.StringVar` initializes it to the
environment default, and parsing overwrites it exactly when the flag was
passed on the command line. -/
def registerFlag (env flags : List (String × String)) (nm : String) : String :=
  match flags.find? (fun e => e.1 == nm) with
  | some kv => kv.2
  | none => envValue env nm

/-- The configuration struct of the flag-registry variant (no `Zipfile`
field in that variant). -/
structure ConfigReg where
  Endpoint : String
  AccessKeyID : String
  SecretAccessKey : String
  Bucket : String
  SourceDir : String
  LogLevel : String
deriving DecidableEq, Repr

/-- `loadConfig` (flag-registry variant): every option resolved by
`registerFlag` from the environment and the command line. -/
def loadConfig (env flags : List (String × String)) : ConfigReg :=
  ConfigReg.mk (registerFlag env flags ("endpoint"))
    (registerFlag env flags ("accesskeyid"))
    (registerFlag env flags ("secretaccesskey"))
    (registerFlag env flags ("bucket"))
    (registerFlag env flags ("sourcedir"))
    (registerFlag env flags ("loglevel"))

/-- The configuration struct of `main.go`. -/
structure Config where
  Endpoint : String
  AccessKeyID : String
  SecretAccessKey : String
  Bucket : String
  SourceDir : String
  Zipfile : String
  LogLevel : String
deriving DecidableEq, Repr

/-- `Config.validate` (src/main.go): the list of the error messages for the
missing required fields, all of them. -/
def Config.validate (c : Config) : List String :=
  (if c.Endpoint == "" then [("s3/s3-compatible endpoint required")] else []) ++
    (if c.AccessKeyID == "" then [("access key ID required")] else []) ++
    (if c.SecretAccessKey == "" then [("secret access key required")] else []) ++
    (if c.Bucket == "" then [("bucket required")] else []) ++
    (if c.SourceDir == "" then [("source directory required")] else []) ++
    (if c.Zipfile == "" then [("zip file required")] else []) ++
    (if c.LogLevel == "" then [("log level required")] else [])

/-- `Config.readFromEnv` (src/main.go): every field taken from the `.env`
map read by `godotenv.Read()`. -/
def Config.readFromEnv (dotenv : List (String × String)) : Config :=
  Config.mk (envValue dotenv ("endpoint")) (envValue dotenv ("accesskeyid"))
    (envValue dotenv ("secretaccesskey")) (envValue dotenv ("bucket"))
    (envValue dotenv ("sourcedir")) (envValue dotenv ("zipfile"))
    (envValue dotenv ("loglevel"))

/-- `Config.readFromFlags` (src/main.go): `flag.StringVar` re-registers every
field with default `""` — overwriting whatever the environment had put there —
and `flag.Parse()` then fills in exactly the flags passed on the command
line. -/
def Config.readFromFlags (flags : List (String × String)) : Config :=
  Config.mk (registerFlag [] flags ("endpoint")) (registerFlag [] flags ("accesskeyid"))
    (registerFlag [] flags ("secretaccesskey")) (registerFlag [] flags ("bucket"))
    (registerFlag [] flags ("dir")) (registerFlag [] flags ("zipfile"))
    (registerFlag [] flags ("loglevel"))

/-- The configuration flow of `main` (src/main.go): read from the `.env`
source; if that validates, use it as is — the flags are never parsed; only
otherwise read the flags (discarding environment values) and validate the
result. -/
def mainConfigFlow (dotenv flags : List (String × String)) : Option Config :=
  let c := Config.readFromEnv dotenv
  if (c.validate).isEmpty then some c
  else
    let c2 := Config.readFromFlags flags
    if (c2.validate).isEmpty then some c2 else none

/-- C9 counterexample: with a complete `.env` (all seven options set, endpoint
`env-endpoint`) and the flag `-endpoint=flag-endpoint` also passed, `main`'s
flow validates the environment-derived configuration first and never parses
the flags: the resulting configuration carries the environment's value, not
the command-line flag's. -/
theorem main_flow_env_wins_counterexample :
    (mainConfigFlow
        [(("endpoint"), ("env-endpoint")), (("accesskeyid"), ("k")),
          (("secretaccesskey"), ("s")), (("bucket"), ("b")), (("sourcedir"), ("d")),
          (("zipfile"), ("z")), (("loglevel"), ("info"))]
        [(("endpoint"), ("flag-endpoint"))]).map (fun c => c.Endpoint) =
      some ("env-endpoint") ∧ ("env-endpoint") ≠ ("flag-endpoint") := by
  refine ⟨by decide, by decide⟩

/-- C9 (amended): under `loadConfig` (the flag-registry variant) flags do take
precedence — an option supplied both by the environment source and on the
command line resolves to the command-line value (shown here for the generic
option and tied to the `endpoint` field of the resulting configuration); under
`main.go`'s flow, however, flags are parsed only when the environment-derived
configuration fails validation, so with a complete environment the flag value
is ignored. -/
theorem loadConfig_flag_precedence (env flags : List (String × String))
    (nm v : String) (hflag : flags.find? (fun e => e.1 == nm) = some (nm, v))
    (henv : envValue env nm ≠ ("")) :
    registerFlag env flags nm = v ∧
      (loadConfig env flags).Endpoint = registerFlag env flags ("endpoint") := by
  constructor
  · rw [registerFlag, hflag]
  · rfl

/-- Witness for C9 (amended): `endpoint` set to `env-endpoint` by the
environment and to `flag-endpoint` on the command line; the resolved value is
`flag-endpoint`. -/
theorem loadConfig_flag_precedence_witness :
    registerFlag [(("endpoint"), ("env-endpoint"))]
        [(("endpoint"), ("flag-endpoint"))] ("endpoint") = ("flag-endpoint") ∧
      (loadConfig [(("endpoint"), ("env-endpoint"))]
          [(("endpoint"), ("flag-endpoint"))]).Endpoint = ("flag-endpoint") := by
  have h := loadConfig_flag_precedence [(("endpoint"), ("env-endpoint"))]
    [(("endpoint"), ("flag-endpoint"))] ("endpoint") ("flag-endpoint")
    (by decide) (by decide)
  exact ⟨h.1, by rw [h.2, h.1]⟩
